import Mathlib

/-!
Verification of the MoneyMind finance-AI-agent frontend and of the
spec-level conversational tool-routing agent.

The Redux chat slice, finance slice, API client, WebSocket hook, chat
interface handler and chart renderer are shallowly embedded from the
TypeScript source.  JavaScript numbers are modelled as `Int`, `Date`
values as `Nat` timestamps, and strings as Lean `String` or `List Char`
(for the JSON serialization pipeline).  Components that exist only in
the repository's documentation (the Router state machine and the
server-side transport emitter) are modelled from the specification and
marked as such in their doc comments.
-/

namespace MoneyMind

/-- JavaScript truthiness fallback `x || 0` on a number
(`NaN` does not arise in the integer model). -/
def jsOrZero (x : Int) : Int := if x = 0 then 0 else x

/-- JavaScript truthiness fallback `s || d` on an optional string:
`undefined`, `null` and the empty string are falsy. -/
def jsOrStr (o : Option String) (d : String) : String :=
  match o with
  | none => d
  | some s => if s = "" then d else s

/-- JavaScript truthiness test `if (s) ...` on an optional string. -/
def strTruthy (o : Option String) : Bool :=
  match o with
  | none => false
  | some s => decide (s ≠ "")

/-! ## Chat slice (src/frontend/src/lib/features/chatSlice.ts) -/

/-- Type `MessageRole` from src/unnamed/part_010 (`'user' | 'assistant'`). -/
inductive Role where
  | user
  | assistant
deriving DecidableEq, Repr

/-- Type `Attachment` from src/unnamed/part_010. -/
structure Attachment where
  id : String
  name : String
  isImage : Bool
  url : String
  size : Option Int
deriving DecidableEq, Repr

/-- Type `Message` from src/unnamed/part_010: one stored chat turn. -/
structure Message where
  id : String
  role : Role
  content : String
  timestamp : Nat
  attachments : Option (List Attachment) := none
deriving DecidableEq, Repr

/-- Type `ChatState` from chatSlice.ts. -/
structure ChatState where
  messages : List Message
  isTyping : Bool
  streamingMessage : Option String
  sessionId : Option String
deriving DecidableEq, Repr

/-- The `initialState` of the chat slice. -/
def chatInitialState : ChatState :=
  { messages := [], isTyping := false, streamingMessage := none, sessionId := none }

/-- The actions of the chat slice (its reducer names). -/
inductive ChatAction where
  | addMessage (m : Message)
  | setTyping (b : Bool)
  | setStreamingMessage (s : Option String)
  | setSessionId (s : Option String)
  | clearChat
  | updateLastMessage (content : String)
deriving DecidableEq, Repr

/-- Action `updateLastMessage`'s effect on the message list: if the list is
nonempty and its last element is an assistant message, replace that
element's `content` with the payload. -/
def updateLast (ms : List Message) (c : String) : List Message :=
  match ms with
  | [] => []
  | [m] => if m.role = Role.assistant then [{ m with content := c }] else [m]
  | m :: m' :: rest => m :: updateLast (m' :: rest) c

/-- The chat slice reducer, case by case from chatSlice.ts. -/
def chatReducer (s : ChatState) (a : ChatAction) : ChatState :=
  match a with
  | .addMessage m => { s with messages := s.messages ++ [m] }
  | .setTyping b => { s with isTyping := b }
  | .setStreamingMessage v => { s with streamingMessage := v }
  | .setSessionId v => { s with sessionId := v }
  | .clearChat => { s with messages := [], streamingMessage := none }
  | .updateLastMessage c => { s with messages := updateLast s.messages c }

/-! ## Finance slice (src/unnamed/part_008, first slice version) -/

/-- Type `Expense` from src/unnamed/part_010. -/
structure Expense where
  id : String
  merchant : String
  amount : Int
  date : Nat
  category : String
deriving DecidableEq, Repr

/-- Type `Subscription` from src/unnamed/part_010. -/
structure Subscription where
  id : String
  name : String
  amount : Int
  nextCharge : Nat
deriving DecidableEq, Repr

/-- Type `Bill` from src/unnamed/part_010. -/
structure Bill where
  id : String
  name : String
  amount : Int
  dueDate : Nat
deriving DecidableEq, Repr

/-- Type `Goal` from src/unnamed/part_010. -/
structure Goal where
  id : String
  name : String
  targetAmount : Int
  currentAmount : Int
  deadline : Nat
deriving DecidableEq, Repr

/-- Type `MonthlyData` from src/unnamed/part_010. -/
structure MonthlyData where
  name : String
  amount : Int
deriving DecidableEq, Repr

/-- Type `DashboardStats` from src/unnamed/part_010. -/
structure DashboardStats where
  totalBalance : Int
  monthlySpending : Int
  upcomingBillsCount : Int
deriving DecidableEq, Repr

/-- Type `FinanceState` from src/unnamed/part_008. -/
structure FinanceState where
  expenses : List Expense
  subscriptions : List Subscription
  bills : List Bill
  goals : List Goal
  stats : DashboardStats
  monthlyData : List MonthlyData
deriving DecidableEq, Repr

/-- The `addExpense` reducer of the finance slice:
`state.expenses.unshift(payload)`,
`state.stats.monthlySpending = (state.stats.monthlySpending || 0) + payload.amount`,
`state.stats.totalBalance = (state.stats.totalBalance || 0) - payload.amount`. -/
def addExpense (s : FinanceState) (e : Expense) : FinanceState :=
  { s with
    expenses := e :: s.expenses,
    stats := { s.stats with
      monthlySpending := jsOrZero s.stats.monthlySpending + e.amount,
      totalBalance := jsOrZero s.stats.totalBalance - e.amount } }

/-! ## JSON values and the `JSON.stringify` / `JSON.parse` builtins

The chart pipeline serializes a chart descriptor with `JSON.stringify`
and parses it back with `JSON.parse`.  JSON values are modelled with
numbers as `Int` and strings as `List Char`; `JSON.stringify` is
modelled compactly (no whitespace, the named escapes for quote,
backslash, newline, tab and carriage return) and `JSON.parse` as a
fueled recursive-descent parser for the same grammar that fails on
trailing garbage, exactly as the builtin does. -/

inductive Json where
  | null
  | bool (b : Bool)
  | num (n : Int)
  | str (s : List Char)
  | arr (xs : List Json)
  | obj (kvs : List (List Char × Json))
deriving Repr

/-- The character for a decimal digit `d < 10`. -/
def digitChar (d : Nat) : Char := Char.ofNat (48 + d)

/-- Decimal digits of a natural number, most significant first. -/
def natChars (n : Nat) : List Char :=
  if _h : n < 10 then [digitChar n]
  else natChars (n / 10) ++ [digitChar (n % 10)]
termination_by n
decreasing_by exact Nat.div_lt_self (by omega) (by omega)

/-- Decimal rendering of an integer (the model of number stringify). -/
def intChars (n : Int) : List Char :=
  if n < 0 then '-' :: natChars n.natAbs else natChars n.toNat

/-- String-escape one character as `JSON.stringify` does. -/
def escChar (c : Char) : List Char :=
  if c = '\"' then ['\\', '\"']
  else if c = '\\' then ['\\', '\\']
  else if c = '\n' then ['\\', 'n']
  else if c = '\t' then ['\\', 't']
  else if c = '\r' then ['\\', 'r']
  else [c]

/-- String-escape a whole string body. -/
def escape : List Char → List Char
  | [] => []
  | c :: cs => escChar c ++ escape cs

/-- The keyword rendering of a boolean. -/
def boolChars (b : Bool) : List Char :=
  if b then "true".toList else "false".toList

mutual

/-- Model of `JSON.stringify` on a JSON value (compact form, as the builtin
produces without a spacing argument). -/
def ser : Json → List Char
  | .null => "null".toList
  | .bool b => boolChars b
  | .num n => intChars n
  | .str s => '\"' :: escape s ++ ['\"']
  | .arr xs => '[' :: serElems xs ++ [']']
  | .obj kvs => '\x7b' :: serMembers kvs ++ ['\x7d']
termination_by j => sizeOf j

/-- Comma-separated serialization of array elements. -/
def serElems : List Json → List Char
  | [] => []
  | [x] => ser x
  | x :: y :: rest => ser x ++ ',' :: serElems (y :: rest)
termination_by xs => sizeOf xs

/-- Comma-separated serialization of object members. -/
def serMembers : List (List Char × Json) → List Char
  | [] => []
  | [(k, v)] => '\"' :: escape k ++ '\"' :: ':' :: ser v
  | (k, v) :: m :: rest =>
      ('\"' :: escape k ++ '\"' :: ':' :: ser v) ++ ',' :: serMembers (m :: rest)
termination_by kvs => sizeOf kvs

end

mutual

/-- Node count of a JSON value, used as the parser's fuel measure. -/
def sizeJ : Json → Nat
  | .null => 1
  | .bool _ => 1
  | .num _ => 1
  | .str _ => 1
  | .arr xs => 1 + sizeE xs
  | .obj kvs => 1 + sizeM kvs
termination_by j => sizeOf j

/-- Fuel measure of a list of array elements. -/
def sizeE : List Json → Nat
  | [] => 0
  | x :: xs => 1 + sizeJ x + sizeE xs
termination_by xs => sizeOf xs

/-- Fuel measure of a list of object members. -/
def sizeM : List (List Char × Json) → Nat
  | [] => 0
  | (_, v) :: kvs => 1 + sizeJ v + sizeM kvs
termination_by kvs => sizeOf kvs

end

/-- Decimal digit test on a character. -/
def isDigitChar (c : Char) : Bool := decide (48 ≤ c.toNat) && decide (c.toNat ≤ 57)

/-- Split a leading run of decimal digits from the input. -/
def takeDigits : List Char → List Char × List Char
  | [] => ([], [])
  | c :: cs =>
    if isDigitChar c then
      let p := takeDigits cs
      (c :: p.1, p.2)
    else ([], c :: cs)

/-- Numeric value of a digit run (most significant first). -/
def digitsVal (ds : List Char) : Nat := ds.foldl (fun a c => 10 * a + (c.toNat - 48)) 0

/-- Un-escape one escaped character (the serializer's escape subset). -/
def unescChar (e : Char) : Option Char :=
  if e = '\"' then some '\"'
  else if e = '\\' then some '\\'
  else if e = 'n' then some '\n'
  else if e = 't' then some '\t'
  else if e = 'r' then some '\r'
  else none

/-- Parse a string body after the opening quote, up to and including the
closing quote; returns the decoded body and the remaining input. -/
def parseStr : List Char → Option (List Char × List Char)
  | [] => none
  | c :: cs =>
    if c = '\\' then
      match cs with
      | [] => none
      | e :: cs' =>
        match unescChar e, parseStr cs' with
        | some u, some (s, r) => some (u :: s, r)
        | _, _ => none
    else if c = '\"' then some ([], cs)
    else
      match parseStr cs with
      | some (s, r) => some (c :: s, r)
      | none => none

mutual

/-- Model of `JSON.parse`'s value parser: fueled recursive descent over the
compact grammar produced by `ser`.  Returns the parsed value and the
remaining input. -/
def parseV : Nat → List Char → Option (Json × List Char)
  | 0, _ => none
  | _, [] => none
  | fuel + 1, c :: cs =>
    if c = 'n' then
      match cs with
      | 'u' :: 'l' :: 'l' :: rest => some (.null, rest)
      | _ => none
    else if c = 't' then
      match cs with
      | 'r' :: 'u' :: 'e' :: rest => some (.bool true, rest)
      | _ => none
    else if c = 'f' then
      match cs with
      | 'a' :: 'l' :: 's' :: 'e' :: rest => some (.bool false, rest)
      | _ => none
    else if c = '\"' then
      match parseStr cs with
      | some (s, r) => some (.str s, r)
      | none => none
    else if c = '[' then
      if cs.head? = some ']' then some (.arr [], cs.tail)
      else
        match parseElems fuel cs with
        | some (xs, r) => some (.arr xs, r)
        | none => none
    else if c = '\x7b' then
      if cs.head? = some '\x7d' then some (.obj [], cs.tail)
      else
        match parseMembers fuel cs with
        | some (kvs, r) => some (.obj kvs, r)
        | none => none
    else if c = '-' then
      let p := takeDigits cs
      if p.1 = [] then none else some (.num (-(digitsVal p.1 : Int)), p.2)
    else if isDigitChar c then
      let p := takeDigits (c :: cs)
      some (.num (digitsVal p.1 : Int), p.2)
    else none

/-- Parse one or more comma-separated array elements and the closing
bracket. -/
def parseElems : Nat → List Char → Option (List Json × List Char)
  | 0, _ => none
  | fuel + 1, cs =>
    match parseV fuel cs with
    | none => none
    | some (v, r) =>
      match r with
      | [] => none
      | c :: r' =>
        if c = ',' then
          match parseElems fuel r' with
          | none => none
          | some (vs, r₂) => some (v :: vs, r₂)
        else if c = ']' then some ([v], r')
        else none

/-- Parse one or more comma-separated object members and the closing
brace. -/
def parseMembers : Nat → List Char → Option (List (List Char × Json) × List Char)
  | 0, _ => none
  | fuel + 1, cs =>
    match cs with
    | [] => none
    | c :: cs' =>
      if c = '\"' then
        match parseStr cs' with
        | none => none
        | some (k, r) =>
          match r with
          | [] => none
          | c₂ :: r' =>
            if c₂ = ':' then
              match parseV fuel r' with
              | none => none
              | some (v, r₂) =>
                match r₂ with
                | [] => none
                | c₃ :: r₃ =>
                  if c₃ = ',' then
                    match parseMembers fuel r₃ with
                    | none => none
                    | some (kvs, r₄) => some ((k, v) :: kvs, r₄)
                  else if c₃ = '\x7d' then some ([(k, v)], r₃)
                  else none
            else none
      else none

end

/-- Model of `JSON.parse` on a whole input: the parsed value if the grammar
matches and the input is fully consumed, failure otherwise. -/
def parseJson (cs : List Char) : Option Json :=
  match parseV (cs.length + 1) cs with
  | some (j, []) => some j
  | _ => none

/-- The inputs that may legally follow a serialized value inside a
larger serialization: nothing, or a separator / closing delimiter. -/
def Delim (rest : List Char) : Prop :=
  rest = [] ∨ ∃ c cs, rest = c :: cs ∧ (c = ',' ∨ c = ']' ∨ c = '\x7d')

/-! ## The chart fence pipeline (src/unnamed/part_014)

The `'chart'` case of the WebSocket handler embeds the chart descriptor
as a fenced code block; the markdown code renderer extracts the fence
body (which carries the fence's trailing newline), strips that newline
with `replace(/\n$/, "")` and parses it with `JSON.parse`. -/

/-- The opening fence of a chart block: three backticks, the info string
`chart` and a newline. -/
def fenceOpen : List Char := "```chart\n".toList

/-- Three backticks. -/
def backtick3 : List Char := "```".toList

/-- The content string built by the `'chart'` handler case:
three backticks + `chart` + newline, the stringified descriptor, then
newline + three backticks. -/
def mkChartContent (chart : Json) : List Char :=
  fenceOpen ++ ser chart ++ '\n' :: backtick3

/-- Fenced-code-block extraction as performed by the markdown renderer:
for a content of the produced shape, the children of the `code` element
are everything between the info line and the closing fence, including
the newline before the closing fence. -/
def extractChartCode (cs : List Char) : Option (List Char) :=
  if cs.take 9 = fenceOpen ∧ cs.drop (cs.length - 3) = backtick3 then
    some ((cs.drop 9).take (cs.length - 12))
  else none

/-- Model of `String(children).replace(/\n$/, "")`: drop one trailing newline. -/
def stripTrailingNewline (cs : List Char) : List Char :=
  if cs.getLast? = some '\n' then cs.dropLast else cs

/-- The renderer path for a chart fence: extract the fence body, strip
its trailing newline and `JSON.parse` the result. -/
def renderChartBlock (content : List Char) : Option Json :=
  match extractChartCode content with
  | some body => parseJson (stripTrailingNewline body)
  | none => none

/-! ## WebSocket chat messages and the ChatInterface handler
(src/frontend/src/lib/hooks/useAuth.ts `ChatMessage`,
src/unnamed/part_014 message handler switch) -/

/-- The message kinds of the `ChatMessage` union type. -/
inductive MsgKind where
  | status
  | stream
  | complete
  | error
  | system
  | chart
  | pong
deriving DecidableEq, Repr

/-- An inbound WebSocket `ChatMessage`. -/
structure WsMessage where
  kind : MsgKind
  content : Option String := none
  sessionId : Option String := none
  chart : Option Json := none

/-- A notification surfaced by `showNotification`. -/
structure Notification where
  message : String
  isError : Bool
deriving DecidableEq, Repr

/-- The effect of one inbound message on the chat state plus the
notifications emitted while handling it, from the `switch` in the
ChatInterface `onMessage` callback.  `now` models `Date.now()`;
`List Char` content is converted with `String.mk` for storage. -/
def handleWsMessage (now : Nat) (m : WsMessage) (s : ChatState) :
    ChatState × List Notification :=
  match m.kind with
  | .system =>
    if strTruthy m.content then
      (s, [{ message := m.content.getD "", isError := false }])
    else (s, [])
  | .status =>
    if strTruthy m.content then
      (chatReducer (chatReducer s (.setTyping true)) (.setStreamingMessage m.content), [])
    else (s, [])
  | .stream =>
    if strTruthy m.content then (chatReducer s (.setStreamingMessage m.content), [])
    else (s, [])
  | .complete =>
    let s₁ := chatReducer s (.setTyping false)
    let s₂ :=
      if strTruthy m.content then
        chatReducer s₁ (.addMessage
          { id := toString now, role := .assistant, content := m.content.getD "",
            timestamp := now })
      else s₁
    (chatReducer s₂ (.setStreamingMessage none), [])
  | .chart =>
    match m.chart with
    | some c =>
      (chatReducer s (.addMessage
        { id := toString now, role := .assistant,
          content := String.mk (mkChartContent c), timestamp := now }), [])
    | none => (s, [])
  | .error =>
    let s₁ := chatReducer (chatReducer s (.setTyping false)) (.setStreamingMessage none)
    (s₁, [{ message := jsOrStr m.content "An error occurred", isError := true }])
  | .pong => (s, [])

/-- Function `handleNewChat` from the ChatInterface: dispatch `clearChat`, send
the websocket clear signal (no state effect modelled), show a success
notification. -/
def handleNewChat (s : ChatState) : ChatState × List Notification :=
  (chatReducer s .clearChat, [{ message := "New chat session started", isError := false }])

/-! ## Chart renderer (src/unnamed/part_015) -/

/-- A parsed chart config as consumed by `ChartRenderer` — the runtime
shape after `JSON.parse`, whose `type` is an arbitrary string. -/
structure ChartConfig where
  type : String
  title : String
  data : List Json
  colors : List String
  dataKey : Option String := none
  nameKey : Option String := none
  category : Option String := none

/-- The declared `ChartData.type` union (`'pie' | 'bar' | 'line'`,
src/unnamed/part_010). -/
inductive ChartKind where
  | pie
  | bar
  | line
deriving DecidableEq, Repr

/-- The string value of a declared chart kind. -/
def chartKindString : ChartKind → String
  | .pie => "pie"
  | .bar => "bar"
  | .line => "line"

/-- The renderer's output shape: one chart element per supported kind,
or the unsupported-chart fallback `<div>Unsupported chart type</div>`. -/
inductive Rendered where
  | pieChart (data : List Json) (dataKey : String)
  | barChart (data : List Json) (xKey : String) (dataKey : String)
  | lineChart (data : List Json) (xKey : String) (dataKey : String)
  | unsupported
deriving Repr

/-- Function `renderChart` from `ChartRenderer`: switch on `type` with the
recharts element per case and the fallback `default` branch; `bar` and
`line` bind the x axis to `category || "name"` and the series to
`dataKey || "value"`, `pie` binds the series to the literal `"value"`. -/
def renderChart (c : ChartConfig) : Rendered :=
  match c.type with
  | "pie" => .pieChart c.data "value"
  | "bar" => .barChart c.data (jsOrStr c.category "name") (jsOrStr c.dataKey "value")
  | "line" => .lineChart c.data (jsOrStr c.category "name") (jsOrStr c.dataKey "value")
  | _ => .unsupported

/-! ## API client (src/frontend/src/lib/api/client.ts) -/

/-- The outcome of one `fetch` call as seen by the caller: either the
promise rejected (network error) or a response arrived with a status
code and a body that `response.json()` either parses (`some`) or not
(`none`, via `.catch(() => null)`). -/
inductive FetchOutcome where
  | thrown (msg : String)
  | resp (status : Nat) (body : Option Json)

/-- Predicate `response.ok`: status in the 2xx range. -/
def respOk (status : Nat) : Bool := decide (200 ≤ status) && decide (status < 300)

/-- Type `ApiResponse<T>` from client.ts. -/
structure ApiResponse where
  data : Option Json
  error : Option String
  status : Nat

/-- One round of environment input for `apiRequest`: the outcome of the
request's own `fetch`, whether a refresh token is stored, and the
outcome of the refresh endpoint's `fetch` should a refresh be needed. -/
structure ApiEnvStep where
  fetch : FetchOutcome
  hasRefreshToken : Bool
  refreshFetch : FetchOutcome

/-- Extract the string at a key of a JSON object body, for the error
message lookup `data?.detail` / `data?.message`. -/
def lookupStr (body : Option Json) (key : String) : Option String :=
  match body with
  | some (.obj kvs) =>
    match kvs.find? (fun kv => kv.1 = key.toList) with
    | some (_, .str s) => some (String.mk s)
    | _ => none
  | _ => none

/-- Lookup `data?.detail || data?.message || 'Request failed'` with JavaScript
truthiness (an empty string falls through). -/
def apiErrorMsg (body : Option Json) : String :=
  jsOrStr (lookupStr body "detail") (jsOrStr (lookupStr body "message") "Request failed")

/-- Function `refreshAccessToken`: false if no refresh token is stored; otherwise
true exactly when the refresh fetch resolves OK and its body parses
(`await response.json()` throwing is caught and yields false). -/
def refreshAccessToken (hasToken : Bool) (out : FetchOutcome) : Bool :=
  if !hasToken then false
  else
    match out with
    | .thrown _ => false
    | .resp status body => respOk status && body.isSome

/-- Function `apiRequest`, driven by the list of environment steps it consumes —
one step per attempt; the recursion is the 401 refresh-and-retry path.
An exhausted environment is modelled as the network failing
(`fetch` rejecting with `'Network error'`). -/
def apiRequest (urlIncludesRefresh : Bool) : List ApiEnvStep → ApiResponse
  | [] => { data := none, error := some "Network error", status := 0 }
  | step :: rest =>
    match step.fetch with
    | .thrown msg => { data := none, error := some msg, status := 0 }
    | .resp status body =>
      if respOk status then { data := body, error := none, status := status }
      else
        if status = 401 && !urlIncludesRefresh
            && refreshAccessToken step.hasRefreshToken step.refreshFetch then
          apiRequest urlIncludesRefresh rest
        else { data := none, error := some (apiErrorMsg body), status := status }

/-! ## WebSocket reconnect logic (src/frontend/src/lib/hooks/useAuth.ts
`useWebSocket`) -/

/-- The reconnect-relevant state of the `useWebSocket` hook:
`reconnectAttemptsRef`, the `isConnected` / `isConnecting` flags, the
recorded error, and whether a reconnect timer is pending. -/
structure WsState where
  attempts : Nat
  connected : Bool
  connecting : Bool
  error : Option String
  reconnectScheduled : Bool
deriving DecidableEq, Repr

/-- The default of the `maxReconnectAttempts` option. -/
def wsDefaultMaxReconnectAttempts : Nat := 5

/-- The hook's initial state: counter at zero, disconnected, no error. -/
def wsInitialState : WsState :=
  { attempts := 0, connected := false, connecting := false, error := none,
    reconnectScheduled := false }

/-- The events that drive the reconnect logic: a `connect()` call (from
the scheduled timer or the caller), the socket's `onopen`, and its
`onclose`. -/
inductive WsEvent where
  | connectCall
  | opened
  | closed
deriving DecidableEq, Repr

/-- One step of the hook's reconnect state machine, transcribed from
`connect`, `ws.onopen` and `ws.onclose`. -/
def wsStep (maxReconnectAttempts : Nat) (s : WsState) (e : WsEvent) : WsState :=
  match e with
  | .connectCall =>
    { s with connecting := true, error := none, reconnectScheduled := false }
  | .opened =>
    { s with connected := true, connecting := false, attempts := 0 }
  | .closed =>
    let s' := { s with connected := false, connecting := false }
    if s.attempts < maxReconnectAttempts then
      { s' with attempts := s.attempts + 1, reconnectScheduled := true }
    else
      { s' with error := some "Failed to connect after multiple attempts",
                reconnectScheduled := false }

/-- Run the reconnect state machine over a sequence of events. -/
def wsRun (maxReconnectAttempts : Nat) (events : List WsEvent) : WsState :=
  events.foldl (wsStep maxReconnectAttempts) wsInitialState

/-! ## The Router state machine

Modelled from the spec: the repository bundle contains no source for
the backend agent loop — the Router/Controller of §4.2 exists only at
documentation level.  The model transcribes §4.2 and §7: in
`EvaluatingResult`, a success responds; a recoverable failure with
`retryCount < maxRetries` loops back to `ExecutingTool` (or to
`AwaitingParameters` when the failure is a bad parameter), incrementing
`retryCount`; a recoverable failure with `retryCount ≥ maxRetries`
responds with the `LoopLimitExceeded` graceful failure; an
unrecoverable failure responds with an explicit failure explanation. -/

/-- The failure taxonomy of §7 that reaches `EvaluatingResult`. -/
inductive ToolFailure where
  | missingParameter
  | invalidParameterValue
  | toolTransientFailure
  | toolPermanentFailure
deriving DecidableEq, Repr

/-- A classified tool result delivered to `EvaluatingResult`. -/
inductive ToolOutcome where
  | success
  | failure (f : ToolFailure)
deriving DecidableEq, Repr

/-- Recoverable failures per §7: missing/invalid parameters and
transient failures; permanent failures are not retried. -/
def recoverable : ToolFailure → Bool
  | .missingParameter => true
  | .invalidParameterValue => true
  | .toolTransientFailure => true
  | .toolPermanentFailure => false

/-- Failures that indicate a bad parameter value, which loop back to
`AwaitingParameters` instead of `ExecutingTool`. -/
def paramFault : ToolFailure → Bool
  | .missingParameter => true
  | .invalidParameterValue => true
  | _ => false

/-- The kind of message carried by the terminal `Responding` state. -/
inductive RespondKind where
  | toolSuccess
  | failureExplained (f : ToolFailure)
  | loopLimitExceeded
deriving DecidableEq, Repr

/-- The Router's next move out of `EvaluatingResult`. -/
inductive RouterNext where
  | retryTool (retryCount : Nat)
  | reprompt (retryCount : Nat)
  | respond (kind : RespondKind)
deriving DecidableEq, Repr

/-- Modelled from the spec: the `EvaluatingResult` decision of §4.2 at
the current `retryCount` — the Router implementation is absent from the
bundle. -/
def evalStep (maxRetries retryCount : Nat) (o : ToolOutcome) : RouterNext :=
  match o with
  | .success => .respond .toolSuccess
  | .failure f =>
    if recoverable f then
      if retryCount < maxRetries then
        if paramFault f then .reprompt (retryCount + 1) else .retryTool (retryCount + 1)
      else .respond .loopLimitExceeded
    else .respond (.failureExplained f)

/-- Modelled from the spec: the execute/evaluate loop of one decision
cycle over the sequence of tool outcomes the executor produces — loop
back while the evaluation asks for a retry or a reprompt, stop at the
first `Responding`; `none` if the outcome sequence ends mid-loop. -/
def runCycle (maxRetries : Nat) : Nat → List ToolOutcome → Option RespondKind
  | _, [] => none
  | retryCount, o :: rest =>
    match evalStep maxRetries retryCount o with
    | .respond k => some k
    | .retryTool rc => runCycle maxRetries rc rest
    | .reprompt rc => runCycle maxRetries rc rest

/-- Modelled from the spec: the retry counters at which successive
outcomes of a decision cycle are evaluated, starting from
`retryCount`. -/
def cycleCounts (maxRetries : Nat) : Nat → List ToolOutcome → List Nat
  | _, [] => []
  | retryCount, o :: rest =>
    retryCount ::
      match evalStep maxRetries retryCount o with
      | .respond _ => []
      | .retryTool rc => cycleCounts maxRetries rc rest
      | .reprompt rc => cycleCounts maxRetries rc rest

/-! ## The transport message-kind sequence

Modelled from the spec: the server side of the WebSocket transport is
not part of the bundle.  §6 fixes the per-cycle wire discipline: status
or progress notices, then narrative or structured content, then a
completion marker — `status* → content* → complete`, or an error kind
terminating the cycle. -/

/-- Whether a decision cycle's stream terminates normally or with an
error after its statuses and contents. -/
inductive CycleEnd where
  | completed
  | errored
deriving DecidableEq, Repr

/-- The terminal marker kind of a decision cycle. -/
def cycleEndKind : CycleEnd → MsgKind
  | .completed => .complete
  | .errored => .error

/-- Modelled from the spec: the kinds delivered over the transport for
one decision cycle (the server-side emitter is absent from the bundle) —
`statusCount` status notices, then `contentCount` content chunks, then
the terminal marker. -/
def cycleTrace (statusCount contentCount : Nat) (e : CycleEnd) : List MsgKind :=
  List.replicate statusCount .status ++ List.replicate contentCount .stream ++
    [cycleEndKind e]

/-- Acceptor for the wire discipline `status* → stream* → (complete |
error)`: statuses are allowed only before the first content chunk, and
the sequence ends at the terminal marker. -/
def seqOkFrom (statusAllowed : Bool) : List MsgKind → Bool
  | [.complete] => true
  | [.error] => true
  | .status :: rest => statusAllowed && seqOkFrom true rest
  | .stream :: rest => seqOkFrom false rest
  | _ => false

/-- Acceptor for a whole decision cycle's kind sequence. -/
def seqOk (trace : List MsgKind) : Bool := seqOkFrom true trace

/-- The closed set of message kinds of the client's `ChatMessage` type
(src/frontend/src/lib/hooks/useAuth.ts). -/
def clientKinds : List MsgKind :=
  [.status, .stream, .complete, .error, .system, .chart, .pong]

end MoneyMind

namespace MoneyMind

/-! ## Basic lemmas -/

theorem jsOrZero_eq (x : Int) : jsOrZero x = x := by
  unfold jsOrZero; split <;> omega

/-! ## C10: the addExpense frame -/

/-- C10: `addExpense` prepends the expense to the expense list, adds its
amount to `stats.monthlySpending`, subtracts it from
`stats.totalBalance` — so their sum is unchanged — and leaves
subscriptions, bills, goals, monthlyData and `upcomingBillsCount`
unchanged. -/
theorem addExpense_frame (s : FinanceState) (e : Expense) :
    (addExpense s e).expenses = e :: s.expenses ∧
    (addExpense s e).stats.monthlySpending = s.stats.monthlySpending + e.amount ∧
    (addExpense s e).stats.totalBalance = s.stats.totalBalance - e.amount ∧
    (addExpense s e).stats.monthlySpending + (addExpense s e).stats.totalBalance
      = s.stats.monthlySpending + s.stats.totalBalance ∧
    (addExpense s e).subscriptions = s.subscriptions ∧
    (addExpense s e).bills = s.bills ∧
    (addExpense s e).goals = s.goals ∧
    (addExpense s e).monthlyData = s.monthlyData ∧
    (addExpense s e).stats.upcomingBillsCount = s.stats.upcomingBillsCount := by
  unfold addExpense
  rw [jsOrZero_eq, jsOrZero_eq]
  refine ⟨rfl, rfl, rfl, ?_, rfl, rfl, rfl, rfl, rfl⟩
  show s.stats.monthlySpending + e.amount + (s.stats.totalBalance - e.amount)
    = s.stats.monthlySpending + s.stats.totalBalance
  omega

/-! ## C3: the session-reset effect of clearChat -/

/-- C3 counterexample: with typing in progress and a session id set,
`clearChat` leaves `isTyping` and `sessionId` at their pre-reset values,
which differ from the initial values the claim requires. -/
theorem clearChat_counterexample :
    (chatReducer
        { messages := [], isTyping := true, streamingMessage := none,
          sessionId := some "s" } ChatAction.clearChat).isTyping = true ∧
    (chatReducer
        { messages := [], isTyping := true, streamingMessage := none,
          sessionId := some "s" } ChatAction.clearChat).sessionId = some "s" ∧
    chatInitialState.isTyping = false ∧
    chatInitialState.sessionId = none :=
  ⟨rfl, rfl, rfl, rfl⟩

/-- C3 (amended): the session-reset `clearChat` resets `messages` and
`streamingMessage` to their initial values and leaves `isTyping` and
`sessionId` unchanged. -/
theorem clearChat_spec (s : ChatState) :
    (chatReducer s ChatAction.clearChat).messages = chatInitialState.messages ∧
    (chatReducer s ChatAction.clearChat).streamingMessage
      = chatInitialState.streamingMessage ∧
    (chatReducer s ChatAction.clearChat).isTyping = s.isTyping ∧
    (chatReducer s ChatAction.clearChat).sessionId = s.sessionId :=
  ⟨rfl, rfl, rfl, rfl⟩

/-! ## C2: the append-only discipline of the stored turns -/

theorem updateLast_concat (pre : List Message) (last : Message) (c : String) :
    updateLast (pre ++ [last]) c
      = pre ++ [if last.role = Role.assistant then { last with content := c } else last] := by
  induction pre with
  | nil => by_cases hr : last.role = Role.assistant <;> simp [updateLast, hr]
  | cons p pre ih =>
    cases pre with
    | nil => by_cases hr : last.role = Role.assistant <;> simp [updateLast, hr]
    | cons q pre' =>
      simp only [List.cons_append] at ih ⊢
      rw [updateLast, ih]

/-- C2 counterexample: dispatching `updateLastMessage` on a state whose
last stored turn is an assistant turn rewrites that turn's content in
place: the stored sequence changes without a turn being appended, so an
action modifies a previously stored turn. -/
theorem updateLastMessage_counterexample :
    (chatReducer
        { messages := [{ id := "1", role := Role.assistant,
                         content := "a", timestamp := 0 }],
          isTyping := false, streamingMessage := none, sessionId := none }
        (ChatAction.updateLastMessage "b")).messages
      = [{ id := "1", role := Role.assistant, content := "b", timestamp := 0 }] ∧
    (chatReducer
        { messages := [{ id := "1", role := Role.assistant,
                         content := "a", timestamp := 0 }],
          isTyping := false, streamingMessage := none, sessionId := none }
        (ChatAction.updateLastMessage "b")).messages
      ≠ [{ id := "1", role := Role.assistant, content := "a", timestamp := 0 }] :=
  ⟨rfl, by decide⟩

/-- C2 (amended): between session resets, every chat action other than
`updateLastMessage` either appends one turn at the end of the stored
sequence or leaves it unchanged; `updateLastMessage` never removes,
reorders or appends turns — at most it rewrites the content of the
final turn, and only when that turn is an assistant turn. -/
theorem chat_append_only (s : ChatState) (a : ChatAction)
    (hreset : a ≠ ChatAction.clearChat) :
    (∃ m, (chatReducer s a).messages = s.messages ++ [m]) ∨
    (chatReducer s a).messages = s.messages ∨
    (∃ pre last c, a = ChatAction.updateLastMessage c ∧
      s.messages = pre ++ [last] ∧ last.role = Role.assistant ∧
      (chatReducer s a).messages = pre ++ [{ last with content := c }]) := by
  cases a with
  | addMessage m => exact Or.inl ⟨m, rfl⟩
  | setTyping b => exact Or.inr (Or.inl rfl)
  | setStreamingMessage v => exact Or.inr (Or.inl rfl)
  | setSessionId v => exact Or.inr (Or.inl rfl)
  | clearChat => exact absurd rfl hreset
  | updateLastMessage c =>
    rcases List.eq_nil_or_concat s.messages with h | ⟨pre, last, h⟩
    · exact Or.inr (Or.inl (by simp [chatReducer, h, updateLast]))
    · rw [List.concat_eq_append] at h
      by_cases hr : last.role = Role.assistant
      · refine Or.inr (Or.inr ⟨pre, last, c, rfl, h, hr, ?_⟩)
        simp [chatReducer, h, updateLast_concat, hr]
      · refine Or.inr (Or.inl ?_)
        simp [chatReducer, h, updateLast_concat, hr]

/-- Witness for the amended C2 theorem at a concrete non-reset action:
`addMessage` appends its turn. -/
theorem chat_append_only_witness :
    (∃ m, (chatReducer chatInitialState
        (ChatAction.addMessage
          { id := "1", role := Role.user, content := "hi", timestamp := 0 })).messages
      = chatInitialState.messages ++ [m]) ∨
    (chatReducer chatInitialState
        (ChatAction.addMessage
          { id := "1", role := Role.user, content := "hi", timestamp := 0 })).messages
      = chatInitialState.messages ∨
    (∃ pre last c,
      ChatAction.addMessage
          { id := "1", role := Role.user, content := "hi", timestamp := 0 }
        = ChatAction.updateLastMessage c ∧
      chatInitialState.messages = pre ++ [last] ∧ last.role = Role.assistant ∧
      (chatReducer chatInitialState
          (ChatAction.addMessage
            { id := "1", role := Role.user, content := "hi", timestamp := 0 })).messages
        = pre ++ [{ last with content := c }]) :=
  chat_append_only chatInitialState
    (ChatAction.addMessage
      { id := "1", role := Role.user, content := "hi", timestamp := 0 })
    (by decide)

/-! ## C7: totality of the chart renderer -/

/-- C7: the declared chart kinds are exactly pie, bar and line; the
renderer maps each supported kind to its chart element with the bound
series and category keys, and for every other `type` value it is still
total, returning the unsupported-chart fallback. -/
theorem renderChart_total (c : ChartConfig) :
    (∀ k : ChartKind, chartKindString k = "pie" ∨ chartKindString k = "bar"
      ∨ chartKindString k = "line") ∧
    (c.type = "pie" → renderChart c = Rendered.pieChart c.data "value") ∧
    (c.type = "bar" → renderChart c
      = Rendered.barChart c.data (jsOrStr c.category "name") (jsOrStr c.dataKey "value")) ∧
    (c.type = "line" → renderChart c
      = Rendered.lineChart c.data (jsOrStr c.category "name") (jsOrStr c.dataKey "value")) ∧
    (c.type ≠ "pie" → c.type ≠ "bar" → c.type ≠ "line" →
      renderChart c = Rendered.unsupported) := by
  refine ⟨fun k => by cases k <;> simp [chartKindString], ?_, ?_, ?_, ?_⟩
  · intro h; unfold renderChart; rw [h]; split <;> simp_all
  · intro h; unfold renderChart; rw [h]; split <;> simp_all
  · intro h; unfold renderChart; rw [h]; split <;> simp_all
  · intro h1 h2 h3; unfold renderChart
    split <;> simp_all

/-- Witness for C7 at a concrete pie descriptor. -/
theorem renderChart_total_witness :
    renderChart { type := "pie", title := "t", data := [], colors := [] }
      = Rendered.pieChart [] "value" :=
  (renderChart_total _).2.1 rfl

/-! ## C8: totality of apiRequest -/

/-- C8: `apiRequest` always returns an `ApiResponse`: a thrown fetch
error maps to status 0 with a non-null error string; a `response.ok`
outcome returns the (possibly unparsable, hence null) body with error
null; whenever the returned error is null, the response that produced
it was a 2xx; and a response with an error always has null data. -/
theorem apiRequest_total (u : Bool) :
    (∀ (msg : String) (step : ApiEnvStep) (rest : List ApiEnvStep),
      step.fetch = FetchOutcome.thrown msg →
      apiRequest u (step :: rest)
        = { data := none, error := some msg, status := 0 }) ∧
    (∀ (step : ApiEnvStep) (rest : List ApiEnvStep) (status : Nat) (body : Option Json),
      step.fetch = FetchOutcome.resp status body → respOk status = true →
      apiRequest u (step :: rest)
        = { data := body, error := none, status := status }) ∧
    (∀ env, (apiRequest u env).error = none → respOk (apiRequest u env).status = true) ∧
    (∀ env, (apiRequest u env).error = none ∨ (apiRequest u env).data = none) := by
  refine ⟨?_, ?_, ?_, ?_⟩
  · intro msg step rest h
    simp [apiRequest, h]
  · intro step rest status body h hok
    simp [apiRequest, h, hok]
  · intro env
    induction env with
    | nil => intro h; simp [apiRequest] at h
    | cons step rest ih =>
      intro h
      rcases hf : step.fetch with msg | ⟨status, body⟩
      · simp [apiRequest, hf] at h
      · by_cases hok : respOk status = true
        · simp [apiRequest, hf, hok]
        · by_cases hretry : (status = 401 ∧ u = false)
            ∧ refreshAccessToken step.hasRefreshToken step.refreshFetch = true
          · obtain ⟨⟨hst, hu⟩, hr⟩ := hretry
            subst hst; subst hu
            simp [apiRequest, hf, hok, hr] at h ⊢
            exact ih h
          · simp [apiRequest, hf, hok, hretry] at h
  · intro env
    induction env with
    | nil => simp [apiRequest]
    | cons step rest ih =>
      rcases hf : step.fetch with msg | ⟨status, body⟩
      · simp [apiRequest, hf]
      · by_cases hok : respOk status = true
        · simp [apiRequest, hf, hok]
        · by_cases hretry : (status = 401 ∧ u = false)
            ∧ refreshAccessToken step.hasRefreshToken step.refreshFetch = true
          · obtain ⟨⟨hst, hu⟩, hr⟩ := hretry
            subst hst; subst hu
            simpa [apiRequest, hf, hok, hr] using ih
          · simp [apiRequest, hf, hok, hretry]

/-- Witness for C8 at a thrown fetch and at a 200 response. -/
theorem apiRequest_total_witness :
    apiRequest false [{ fetch := FetchOutcome.thrown "boom",
                        hasRefreshToken := false,
                        refreshFetch := FetchOutcome.thrown "x" }]
      = { data := none, error := some "boom", status := 0 } ∧
    apiRequest false [{ fetch := FetchOutcome.resp 200 none,
                        hasRefreshToken := false,
                        refreshFetch := FetchOutcome.thrown "x" }]
      = { data := none, error := none, status := 200 } :=
  ⟨(apiRequest_total false).1 "boom" _ _ rfl,
   (apiRequest_total false).2.1 _ _ 200 none rfl (by decide)⟩

/-! ## C9: the reconnect-attempt bound -/

/-- C9: in every reachable state of the `useWebSocket` reconnect logic
the attempt counter is bounded by `maxReconnectAttempts` (default 5);
at the bound, `onclose` records the failure error and schedules no
reconnect; below the bound it increments the counter and schedules one;
and a successful `onopen` resets the counter to 0. -/
theorem wsReconnect_bound (maxReconnectAttempts : Nat) :
    (∀ events, (wsRun maxReconnectAttempts events).attempts ≤ maxReconnectAttempts) ∧
    (∀ s : WsState, maxReconnectAttempts ≤ s.attempts →
      wsStep maxReconnectAttempts s WsEvent.closed
        = { s with connected := false, connecting := false,
                   error := some "Failed to connect after multiple attempts",
                   reconnectScheduled := false }) ∧
    (∀ s : WsState, s.attempts < maxReconnectAttempts →
      wsStep maxReconnectAttempts s WsEvent.closed
        = { s with connected := false, connecting := false,
                   attempts := s.attempts + 1, reconnectScheduled := true }) ∧
    (∀ s : WsState, (wsStep maxReconnectAttempts s WsEvent.opened).attempts = 0) ∧
    wsDefaultMaxReconnectAttempts = 5 := by
  refine ⟨?_, ?_, ?_, fun s => rfl, rfl⟩
  · have aux : ∀ (evs : List WsEvent) (s : WsState),
        s.attempts ≤ maxReconnectAttempts →
        (evs.foldl (wsStep maxReconnectAttempts) s).attempts ≤ maxReconnectAttempts := by
      intro evs
      induction evs with
      | nil => intro s h; simpa using h
      | cons e evs ih =>
        intro s h
        simp only [List.foldl_cons]
        apply ih
        cases e with
        | connectCall => simpa [wsStep] using h
        | opened => simp [wsStep]
        | closed =>
          by_cases hlt : s.attempts < maxReconnectAttempts
          · simp [wsStep, hlt]
            omega
          · simp [wsStep, hlt]
            omega
    intro events
    exact aux events wsInitialState (by simp [wsInitialState])
  · intro s h
    have hlt : ¬ s.attempts < maxReconnectAttempts := by omega
    simp [wsStep, hlt]
  · intro s h
    simp [wsStep, h]

/-- Witness for C9 at the default bound of 5. -/
theorem wsReconnect_bound_witness :
    (wsRun 5 [WsEvent.connectCall, WsEvent.closed]).attempts ≤ 5 ∧
    wsStep 5 { attempts := 5, connected := false, connecting := true,
               error := none, reconnectScheduled := false } WsEvent.closed
      = { attempts := 5, connected := false, connecting := false,
          error := some "Failed to connect after multiple attempts",
          reconnectScheduled := false } ∧
    wsStep 5 { attempts := 0, connected := false, connecting := true,
               error := none, reconnectScheduled := false } WsEvent.closed
      = { attempts := 1, connected := false, connecting := false,
          error := none, reconnectScheduled := true } ∧
    (wsStep 5 wsInitialState WsEvent.opened).attempts = 0 :=
  ⟨(wsReconnect_bound 5).1 _,
   (wsReconnect_bound 5).2.1 _ (by decide),
   (wsReconnect_bound 5).2.2.1 _ (by decide),
   (wsReconnect_bound 5).2.2.2.1 _⟩

/-! ## C1: the Router retry bound (spec-modelled) -/

theorem evalStep_loopback (maxRetries retryCount rc' : Nat) (o : ToolOutcome)
    (h : evalStep maxRetries retryCount o = RouterNext.retryTool rc' ∨
         evalStep maxRetries retryCount o = RouterNext.reprompt rc') :
    retryCount < maxRetries ∧ rc' = retryCount + 1 := by
  cases o with
  | success => rcases h with h | h <;> simp [evalStep] at h
  | failure f =>
    by_cases hrec : recoverable f = true
    · by_cases hlt : retryCount < maxRetries
      · by_cases hp : paramFault f = true
        · rcases h with h | h <;> simp [evalStep, hrec, hlt, hp] at h
          exact ⟨hlt, h.symm⟩
        · rcases h with h | h <;> simp [evalStep, hrec, hlt, hp] at h
          exact ⟨hlt, h.symm⟩
      · rcases h with h | h <;> simp [evalStep, hrec, hlt] at h
    · rcases h with h | h <;> simp [evalStep, hrec] at h

theorem cycleCounts_bounded (maxRetries : Nat) :
    ∀ (outs : List ToolOutcome) (retryCount : Nat),
      retryCount ≤ maxRetries →
      ∀ rc ∈ cycleCounts maxRetries retryCount outs, rc ≤ maxRetries := by
  intro outs
  induction outs with
  | nil => intro retryCount _ rc hrc; simp [cycleCounts] at hrc
  | cons o rest ih =>
    intro retryCount hle rc hrc
    rw [cycleCounts] at hrc
    rcases List.mem_cons.mp hrc with rfl | hrc
    · exact hle
    · rcases he : evalStep maxRetries retryCount o with rc₂ | rc₂ | k <;> rw [he] at hrc
      · have hb := evalStep_loopback maxRetries retryCount rc₂ o (Or.inl he)
        exact ih rc₂ (by omega) rc hrc
      · have hb := evalStep_loopback maxRetries retryCount rc₂ o (Or.inr he)
        exact ih rc₂ (by omega) rc hrc
      · simp at hrc

theorem runCycle_replicate_transient (maxRetries : Nat) :
    ∀ (n retryCount : Nat) (rest : List ToolOutcome),
      retryCount + n ≤ maxRetries →
      runCycle maxRetries retryCount
          (List.replicate n (ToolOutcome.failure ToolFailure.toolTransientFailure) ++ rest)
        = runCycle maxRetries (retryCount + n) rest := by
  intro n
  induction n with
  | zero => intro retryCount rest _; simp
  | succ n ih =>
    intro retryCount rest h
    rw [List.replicate_succ, List.cons_append, runCycle]
    have hlt : retryCount < maxRetries := by omega
    have he : evalStep maxRetries retryCount
        (ToolOutcome.failure ToolFailure.toolTransientFailure)
        = RouterNext.retryTool (retryCount + 1) := by
      simp [evalStep, recoverable, paramFault, hlt]
    rw [he]
    have := ih (retryCount + 1) rest (by omega)
    rw [show retryCount + 1 + n = retryCount + (n + 1) by omega] at this
    exact this

theorem evalStep_at_bound (maxRetries : Nat) (o : ToolOutcome) :
    ∃ k, evalStep maxRetries maxRetries o = RouterNext.respond k ∧
      (o = ToolOutcome.failure ToolFailure.toolTransientFailure →
        k = RespondKind.loopLimitExceeded) := by
  cases o with
  | success => exact ⟨RespondKind.toolSuccess, rfl, by simp⟩
  | failure f =>
    by_cases hrec : recoverable f = true
    · refine ⟨RespondKind.loopLimitExceeded, ?_, fun _ => rfl⟩
      simp [evalStep, hrec]
    · refine ⟨RespondKind.failureExplained f, by simp [evalStep, hrec], ?_⟩
      intro hh
      cases hh
      simp [recoverable] at hrec

/-- C1 (spec-modelled Router): every loop-back out of `EvaluatingResult`
happens strictly below `maxRetries` and increments `retryCount`, so the
retry counter of every evaluation reached in a decision cycle is at
most `maxRetries`; and once `maxRetries` consecutive
`ToolTransientFailure` results have been evaluated from a fresh cycle,
the next evaluation always reaches `Responding` — with the
`LoopLimitExceeded` graceful failure when that next result is another
transient failure. -/
theorem router_retry_bound (maxRetries : Nat) :
    (∀ (retryCount rc' : Nat) (o : ToolOutcome),
      (evalStep maxRetries retryCount o = RouterNext.retryTool rc' ∨
       evalStep maxRetries retryCount o = RouterNext.reprompt rc') →
      retryCount < maxRetries ∧ rc' = retryCount + 1 ∧ rc' ≤ maxRetries) ∧
    (∀ (outs : List ToolOutcome), ∀ rc ∈ cycleCounts maxRetries 0 outs,
      rc ≤ maxRetries) ∧
    (∀ (o : ToolOutcome) (rest : List ToolOutcome), ∃ k,
      runCycle maxRetries 0
          (List.replicate maxRetries (ToolOutcome.failure ToolFailure.toolTransientFailure)
            ++ o :: rest)
        = some k ∧
      (o = ToolOutcome.failure ToolFailure.toolTransientFailure →
        k = RespondKind.loopLimitExceeded)) := by
  refine ⟨?_, ?_, ?_⟩
  · intro retryCount rc' o h
    have hb := evalStep_loopback maxRetries retryCount rc' o h
    exact ⟨hb.1, hb.2, by omega⟩
  · intro outs rc hrc
    exact cycleCounts_bounded maxRetries outs 0 (by omega) rc hrc
  · intro o rest
    obtain ⟨k, hk, hkt⟩ := evalStep_at_bound maxRetries o
    refine ⟨k, ?_, hkt⟩
    rw [runCycle_replicate_transient maxRetries maxRetries 0 (o :: rest) (by omega)]
    rw [show 0 + maxRetries = maxRetries by omega]
    rw [runCycle, hk]

/-- Witness for C1 at `maxRetries = 3`: the first transient failure at
counter 0 loops back with counter 1; the counters of a short cycle stay
bounded; and after three consecutive transient failures the fourth
evaluation responds with `LoopLimitExceeded`. -/
theorem router_retry_bound_witness :
    (0 < 3 ∧ (1 : Nat) = 0 + 1 ∧ 1 ≤ 3) ∧
    (0 : Nat) ≤ 3 ∧
    (∃ k, runCycle 3 0
        (List.replicate 3 (ToolOutcome.failure ToolFailure.toolTransientFailure)
          ++ ToolOutcome.failure ToolFailure.toolTransientFailure :: [])
      = some k ∧
      (ToolOutcome.failure ToolFailure.toolTransientFailure
          = ToolOutcome.failure ToolFailure.toolTransientFailure →
        k = RespondKind.loopLimitExceeded)) :=
  ⟨(router_retry_bound 3).1 0 1 (ToolOutcome.failure ToolFailure.toolTransientFailure)
      (Or.inl (by decide)),
   (router_retry_bound 3).2.1 [ToolOutcome.failure ToolFailure.toolTransientFailure] 0
      (by decide),
   (router_retry_bound 3).2.2 (ToolOutcome.failure ToolFailure.toolTransientFailure) []⟩

/-! ## C6: the transport message-kind sequence -/

theorem seqOkFrom_streams (e : CycleEnd) :
    ∀ (c : Nat) (b : Bool),
      seqOkFrom b (List.replicate c MsgKind.stream ++ [cycleEndKind e]) = true := by
  intro c
  induction c with
  | zero => intro b; cases e <;> rfl
  | succ c ih =>
    intro b
    rw [List.replicate_succ, List.cons_append]
    exact ih false

/-- C6 (spec-modelled emitter, real client kind set): every decision
cycle's delivered kind sequence matches
`status* → stream* → (complete | error)`, and every delivered kind lies
in the closed `ChatMessage` kind set the client handles. -/
theorem transport_kinds (s c : Nat) (e : CycleEnd) :
    seqOk (cycleTrace s c e) = true ∧
    (∀ k, k ∈ cycleTrace s c e → k ∈ clientKinds) := by
  constructor
  · unfold seqOk cycleTrace
    rw [List.append_assoc]
    induction s with
    | zero => simpa using seqOkFrom_streams e c true
    | succ s ih =>
      rw [List.replicate_succ, List.cons_append]
      simpa using ih
  · intro k hk
    unfold cycleTrace at hk
    rcases List.mem_append.mp hk with hk | hk
    · rcases List.mem_append.mp hk with hk | hk
      · rcases List.mem_replicate.mp hk with ⟨_, rfl⟩
        simp [clientKinds]
      · rcases List.mem_replicate.mp hk with ⟨_, rfl⟩
        simp [clientKinds]
    · rcases List.mem_singleton.mp hk with rfl
      cases e <;> simp [cycleEndKind, clientKinds]

/-- Witness for C6 at a one-status, one-content, completed cycle. -/
theorem transport_kinds_witness :
    seqOk (cycleTrace 1 1 CycleEnd.completed) = true ∧
    MsgKind.status ∈ clientKinds :=
  ⟨(transport_kinds 1 1 CycleEnd.completed).1,
   (transport_kinds 1 1 CycleEnd.completed).2 MsgKind.status (by decide)⟩

/-! ## C4: output of terminal messages -/

/-- C4 counterexample: a terminal `'error'` message appends no assistant
turn to the conversation (the handler only raises a notification), and
a `'complete'` without content appends none either — so the handler
does not append exactly one assistant narrative for every terminal
inbound message. -/
theorem terminal_message_counterexample :
    (handleWsMessage 0 { kind := MsgKind.error, content := some "boom" }
        chatInitialState).1.messages = [] ∧
    (handleWsMessage 0 { kind := MsgKind.complete, content := none }
        chatInitialState).1.messages = [] :=
  ⟨rfl, rfl⟩

/-- C4 (amended): a `'complete'` message with non-empty content appends
exactly one assistant turn carrying that content and emits no
notification; a `'complete'` without content appends nothing; an
`'error'` message appends no turn but always emits exactly one
user-visible error notification (its content, or `'An error occurred'`)
and clears the typing and streaming indicators — an error-terminated
cycle still produces user-visible output, through the notification
channel rather than a conversation turn. -/
theorem handle_terminal_spec (now : Nat) (s : ChatState) (m : WsMessage) :
    (m.kind = MsgKind.complete → strTruthy m.content = true →
      (handleWsMessage now m s).1.messages
        = s.messages ++ [{ id := toString now, role := Role.assistant,
                           content := m.content.getD "", timestamp := now }] ∧
      (handleWsMessage now m s).2 = []) ∧
    (m.kind = MsgKind.complete → strTruthy m.content = false →
      (handleWsMessage now m s).1.messages = s.messages) ∧
    (m.kind = MsgKind.error →
      (handleWsMessage now m s).1.messages = s.messages ∧
      (handleWsMessage now m s).2
        = [{ message := jsOrStr m.content "An error occurred", isError := true }] ∧
      (handleWsMessage now m s).1.isTyping = false ∧
      (handleWsMessage now m s).1.streamingMessage = none) := by
  refine ⟨?_, ?_, ?_⟩
  · intro hk ht
    simp [handleWsMessage, hk, ht, chatReducer]
  · intro hk ht
    simp [handleWsMessage, hk, ht, chatReducer]
  · intro hk
    simp [handleWsMessage, hk, chatReducer]

/-- Witness for C4's amended theorem at a completed message with
content. -/
theorem handle_terminal_spec_witness :
    (handleWsMessage 7 { kind := MsgKind.complete, content := some "done" }
        chatInitialState).1.messages
      = chatInitialState.messages
        ++ [{ id := toString 7, role := Role.assistant,
              content := (some "done").getD "", timestamp := 7 }] ∧
    (handleWsMessage 7 { kind := MsgKind.complete, content := some "done" }
        chatInitialState).2 = [] :=
  (handle_terminal_spec 7 chatInitialState
      { kind := MsgKind.complete, content := some "done" }).1 rfl (by decide)

/-! ## C5: the chart round trip — number and string lemmas -/

theorem digitChar_toNat (d : Nat) (h : d < 10) : (digitChar d).toNat = 48 + d := by
  interval_cases d <;> decide

theorem isDigitChar_digitChar (d : Nat) (h : d < 10) :
    isDigitChar (digitChar d) = true := by
  interval_cases d <;> decide

theorem natChars_ne_nil (n : Nat) : natChars n ≠ [] := by
  induction n using Nat.strong_induction_on with
  | _ n ih =>
    rw [natChars]
    split <;> simp

theorem natChars_digits (n : Nat) : ∀ c ∈ natChars n, isDigitChar c = true := by
  induction n using Nat.strong_induction_on with
  | _ n ih =>
    rw [natChars]
    split
    · next h =>
      intro c hc
      simp only [List.mem_singleton] at hc
      subst hc
      exact isDigitChar_digitChar n h
    · next h =>
      intro c hc
      rcases List.mem_append.mp hc with hc | hc
      · exact ih (n / 10) (Nat.div_lt_self (by omega) (by omega)) c hc
      · simp only [List.mem_singleton] at hc
        subst hc
        exact isDigitChar_digitChar _ (Nat.mod_lt _ (by omega))

theorem digitsVal_natChars (n : Nat) : digitsVal (natChars n) = n := by
  induction n using Nat.strong_induction_on with
  | _ n ih =>
    rw [natChars]
    split
    · next h =>
      unfold digitsVal
      simp only [List.foldl_cons, List.foldl_nil]
      rw [digitChar_toNat n h]
      omega
    · next h =>
      unfold digitsVal
      rw [List.foldl_append]
      simp only [List.foldl_cons, List.foldl_nil]
      have h1 := ih (n / 10) (Nat.div_lt_self (by omega) (by omega))
      unfold digitsVal at h1
      rw [h1, digitChar_toNat (n % 10) (Nat.mod_lt _ (by omega))]
      omega

theorem takeDigits_append (ds rest : List Char)
    (hds : ∀ c ∈ ds, isDigitChar c = true)
    (hrest : ∀ c, rest.head? = some c → isDigitChar c = false) :
    takeDigits (ds ++ rest) = (ds, rest) := by
  induction ds with
  | nil =>
    cases rest with
    | nil => rfl
    | cons c cs =>
      have := hrest c rfl
      simp [takeDigits, this]
  | cons d ds ih =>
    have hd := hds d (by simp)
    have ih' := ih (fun c hc => hds c (by simp [hc]))
    simp [takeDigits, hd, ih']

theorem parseStr_backslash (e : Char) (cs : List Char) :
    parseStr ('\\' :: e :: cs)
      = (match unescChar e, parseStr cs with
         | some u, some (s, r) => some (u :: s, r)
         | _, _ => none) := by
  rw [parseStr.eq_def]
  rfl

theorem parseStr_quote (cs : List Char) : parseStr ('\"' :: cs) = some ([], cs) := by
  rw [parseStr.eq_def]
  rfl

theorem parseStr_raw (c : Char) (cs : List Char) (h1 : ¬ c = '\\') (h2 : ¬ c = '\"') :
    parseStr (c :: cs)
      = (match parseStr cs with
         | some (s, r) => some (c :: s, r)
         | none => none) := by
  rw [parseStr.eq_def]
  simp only [if_neg h1, if_neg h2]

theorem escChar_raw (c : Char) (h1 : ¬ c = '\"') (h2 : ¬ c = '\\') (h3 : ¬ c = '\n')
    (h4 : ¬ c = '\t') (h5 : ¬ c = '\r') : escChar c = [c] := by
  unfold escChar
  rw [if_neg h1, if_neg h2, if_neg h3, if_neg h4, if_neg h5]

theorem parseStr_escape (s : List Char) :
    ∀ rest, parseStr (escape s ++ '\"' :: rest) = some (s, rest) := by
  induction s with
  | nil => intro rest; exact parseStr_quote rest
  | cons ch s ih =>
    intro rest
    by_cases h1 : ch = '\"'
    · subst h1
      show parseStr ('\\' :: '\"' :: (escape s ++ '\"' :: rest)) = _
      rw [parseStr_backslash, ih rest]
      rfl
    · by_cases h2 : ch = '\\'
      · subst h2
        show parseStr ('\\' :: '\\' :: (escape s ++ '\"' :: rest)) = _
        rw [parseStr_backslash, ih rest]
        rfl
      · by_cases h3 : ch = '\n'
        · subst h3
          show parseStr ('\\' :: 'n' :: (escape s ++ '\"' :: rest)) = _
          rw [parseStr_backslash, ih rest]
          rfl
        · by_cases h4 : ch = '\t'
          · subst h4
            show parseStr ('\\' :: 't' :: (escape s ++ '\"' :: rest)) = _
            rw [parseStr_backslash, ih rest]
            rfl
          · by_cases h5 : ch = '\r'
            · subst h5
              show parseStr ('\\' :: 'r' :: (escape s ++ '\"' :: rest)) = _
              rw [parseStr_backslash, ih rest]
              rfl
            · have he : escape (ch :: s) = ch :: escape s := by
                show escChar ch ++ escape s = _
                rw [escChar_raw ch h1 h2 h3 h4 h5]
                rfl
              rw [show escape (ch :: s) ++ '\"' :: rest
                    = ch :: (escape s ++ '\"' :: rest) by rw [he]; rfl]
              rw [parseStr_raw ch _ h2 h1, ih rest]

/-! ## C5: serializer shapes, sizes and delimiters -/

theorem isDigit_ne (c : Char) (h : isDigitChar c = true) :
    c ≠ 'n' ∧ c ≠ 't' ∧ c ≠ 'f' ∧ c ≠ '\"' ∧ c ≠ '[' ∧ c ≠ '\x7b' ∧ c ≠ '-'
      ∧ c ≠ ']' ∧ c ≠ '\x7d' ∧ c ≠ ',' := by
  refine ⟨?_, ?_, ?_, ?_, ?_, ?_, ?_, ?_, ?_, ?_⟩ <;>
    (rintro rfl; revert h; decide)

theorem natChars_head (n : Nat) :
    ∃ c cs, natChars n = c :: cs ∧ isDigitChar c = true := by
  cases hl : natChars n with
  | nil => exact absurd hl (natChars_ne_nil n)
  | cons c cs =>
    exact ⟨c, cs, rfl, natChars_digits n c (by rw [hl]; simp)⟩

theorem intChars_ne_nil (n : Int) : intChars n ≠ [] := by
  unfold intChars
  split
  · simp
  · exact natChars_ne_nil _

theorem ser_head (j : Json) : ∃ c cs, ser j = c :: cs ∧ c ≠ ']' ∧ c ≠ '\x7d' := by
  cases j with
  | null => exact ⟨'n', "ull".toList, by rw [ser]; rfl, by decide, by decide⟩
  | bool b =>
    cases b with
    | true => exact ⟨'t', "rue".toList, by rw [ser]; rfl, by decide, by decide⟩
    | false => exact ⟨'f', "alse".toList, by rw [ser]; rfl, by decide, by decide⟩
  | num n =>
    rw [ser]
    unfold intChars
    split
    · exact ⟨'-', _, rfl, by decide, by decide⟩
    · obtain ⟨c, cs, hc, hd⟩ := natChars_head n.toNat
      obtain ⟨_, _, _, _, _, _, _, h8, h9, _⟩ := isDigit_ne c hd
      exact ⟨c, cs, hc, h8, h9⟩
  | str s => exact ⟨'\"', escape s ++ ['\"'], by simp [ser], by decide, by decide⟩
  | arr xs => exact ⟨'[', serElems xs ++ [']'], by simp [ser], by decide, by decide⟩
  | obj kvs => exact ⟨'\x7b', serMembers kvs ++ ['\x7d'], by simp [ser], by decide, by decide⟩

theorem serElems_single (x : Json) : serElems [x] = ser x := by rw [serElems]

theorem serElems_cons2 (x y : Json) (rest : List Json) :
    serElems (x :: y :: rest) = ser x ++ ',' :: serElems (y :: rest) := by
  rw [serElems]

theorem serMembers_single (k : List Char) (v : Json) :
    serMembers [(k, v)] = '\"' :: escape k ++ '\"' :: ':' :: ser v := by
  rw [serMembers]

theorem serMembers_cons2 (k : List Char) (v : Json) (m : List Char × Json)
    (rest : List (List Char × Json)) :
    serMembers ((k, v) :: m :: rest)
      = ('\"' :: escape k ++ '\"' :: ':' :: ser v) ++ ',' :: serMembers (m :: rest) := by
  rw [serMembers]

theorem sizeJ_pos (j : Json) : 1 ≤ sizeJ j := by
  cases j <;> rw [sizeJ] <;> omega

theorem sizeE_cons (x : Json) (xs : List Json) :
    sizeE (x :: xs) = 1 + sizeJ x + sizeE xs := by rw [sizeE]

theorem sizeM_cons (k : List Char) (v : Json) (kvs : List (List Char × Json)) :
    sizeM ((k, v) :: kvs) = 1 + sizeJ v + sizeM kvs := by rw [sizeM]

theorem delim_head_not_digit (rest : List Char) (h : Delim rest) :
    ∀ c, rest.head? = some c → isDigitChar c = false := by
  rcases h with rfl | ⟨c₀, cs₀, rfl, hc⟩
  · intro c hc'; simp at hc'
  · intro c hc'
    simp only [List.head?_cons, Option.some.injEq] at hc'
    subst hc'
    rcases hc with rfl | rfl | rfl <;> decide

/-! ## C5: parseV reduction lemmas -/

set_option maxHeartbeats 1000000 in
theorem parseV_null (f : Nat) (rest : List Char) :
    parseV (f + 1) ('n' :: 'u' :: 'l' :: 'l' :: rest) = some (.null, rest) := rfl

set_option maxHeartbeats 1000000 in
theorem parseV_true (f : Nat) (rest : List Char) :
    parseV (f + 1) ('t' :: 'r' :: 'u' :: 'e' :: rest) = some (.bool true, rest) := rfl

set_option maxHeartbeats 1000000 in
theorem parseV_false (f : Nat) (rest : List Char) :
    parseV (f + 1) ('f' :: 'a' :: 'l' :: 's' :: 'e' :: rest)
      = some (.bool false, rest) := rfl

set_option maxHeartbeats 1000000 in
theorem parseV_quote (f : Nat) (cs : List Char) :
    parseV (f + 1) ('\"' :: cs)
      = (match parseStr cs with
         | some (s, r) => some (.str s, r)
         | none => none) := rfl

set_option maxHeartbeats 1000000 in
theorem parseV_lbrack (f : Nat) (cs : List Char) :
    parseV (f + 1) ('[' :: cs)
      = (if cs.head? = some ']' then some (.arr [], cs.tail)
         else
           match parseElems f cs with
           | some (xs, r) => some (.arr xs, r)
           | none => none) := rfl

set_option maxHeartbeats 1000000 in
theorem parseV_lbrace (f : Nat) (cs : List Char) :
    parseV (f + 1) ('\x7b' :: cs)
      = (if cs.head? = some '\x7d' then some (.obj [], cs.tail)
         else
           match parseMembers f cs with
           | some (kvs, r) => some (.obj kvs, r)
           | none => none) := rfl

set_option maxHeartbeats 1000000 in
theorem parseV_minus (f : Nat) (cs : List Char) :
    parseV (f + 1) ('-' :: cs)
      = (let p := takeDigits cs
         if p.1 = [] then none
         else some (.num (-(digitsVal p.1 : Int)), p.2)) := rfl

set_option maxHeartbeats 1000000 in
theorem parseV_digit (f : Nat) (c : Char) (cs : List Char) (h : isDigitChar c = true) :
    parseV (f + 1) (c :: cs)
      = (let p := takeDigits (c :: cs)
         some (.num (digitsVal p.1 : Int), p.2)) := by
  obtain ⟨h1, h2, h3, h4, h5, h6, h7, _, _, _⟩ := isDigit_ne c h
  rw [parseV.eq_def]
  simp only [if_neg h1, if_neg h2, if_neg h3, if_neg h4, if_neg h5, if_neg h6,
    if_neg h7, if_pos h]

theorem parseElems_succ (f : Nat) (cs : List Char) :
    parseElems (f + 1) cs
      = (match parseV f cs with
         | none => none
         | some (v, r) =>
           match r with
           | [] => none
           | c :: r' =>
             if c = ',' then
               match parseElems f r' with
               | none => none
               | some (vs, r₂) => some (v :: vs, r₂)
             else if c = ']' then some ([v], r')
             else none) := rfl

theorem parseMembers_quote (f : Nat) (cs' : List Char) :
    parseMembers (f + 1) ('\"' :: cs')
      = (match parseStr cs' with
         | none => none
         | some (k, r) =>
           match r with
           | [] => none
           | c₂ :: r' =>
             if c₂ = ':' then
               match parseV f r' with
               | none => none
               | some (v, r₂) =>
                 match r₂ with
                 | [] => none
                 | c₃ :: r₃ =>
                   if c₃ = ',' then
                     match parseMembers f r₃ with
                     | none => none
                     | some (kvs, r₄) => some ((k, v) :: kvs, r₄)
                   else if c₃ = '\x7d' then some ([(k, v)], r₃)
                   else none
             else none) := rfl

theorem delim_nil : Delim [] := Or.inl rfl

theorem delim_comma (t : List Char) : Delim (',' :: t) :=
  Or.inr ⟨',', t, rfl, Or.inl rfl⟩

theorem delim_brack (t : List Char) : Delim (']' :: t) :=
  Or.inr ⟨']', t, rfl, Or.inr (Or.inl rfl)⟩

theorem delim_brace (t : List Char) : Delim ('\x7d' :: t) :=
  Or.inr ⟨'\x7d', t, rfl, Or.inr (Or.inr rfl)⟩

/-! ## C5: the parse/serialize round trip -/

set_option maxHeartbeats 2000000 in
theorem parse_ser (fuel : Nat) :
    (∀ j rest, sizeJ j ≤ fuel → Delim rest →
      parseV fuel (ser j ++ rest) = some (j, rest)) ∧
    (∀ x xs rest, sizeE (x :: xs) ≤ fuel →
      parseElems fuel (serElems (x :: xs) ++ ']' :: rest) = some (x :: xs, rest)) ∧
    (∀ k v kvs rest, sizeM ((k, v) :: kvs) ≤ fuel →
      parseMembers fuel (serMembers ((k, v) :: kvs) ++ '\x7d' :: rest)
        = some ((k, v) :: kvs, rest)) := by
  induction fuel using Nat.strong_induction_on with
  | _ fuel ih =>
    cases fuel with
    | zero =>
      refine ⟨?_, ?_, ?_⟩
      · intro j rest hsz _
        have := sizeJ_pos j
        omega
      · intro x xs rest hsz
        rw [sizeE_cons] at hsz
        omega
      · intro k v kvs rest hsz
        rw [sizeM_cons] at hsz
        omega
    | succ f =>
      have ihV := (ih f (by omega)).1
      have ihE := (ih f (by omega)).2.1
      have ihM := (ih f (by omega)).2.2
      refine ⟨?_, ?_, ?_⟩
      · intro j rest hsz hdel
        cases j with
        | null =>
          rw [show ser .null = ['n', 'u', 'l', 'l'] from by rw [ser]; rfl]
          exact parseV_null f rest
        | bool b =>
          cases b with
          | false =>
            rw [show ser (.bool false) = ['f', 'a', 'l', 's', 'e'] from by rw [ser]; rfl]
            exact parseV_false f rest
          | true =>
            rw [show ser (.bool true) = ['t', 'r', 'u', 'e'] from by rw [ser]; rfl]
            exact parseV_true f rest
        | num n =>
          rw [show ser (.num n) = intChars n from by rw [ser]]
          unfold intChars
          by_cases hneg : n < 0
          · rw [if_pos hneg, List.cons_append, parseV_minus,
              takeDigits_append _ _ (natChars_digits _) (delim_head_not_digit rest hdel)]
            simp only [if_neg (natChars_ne_nil n.natAbs), digitsVal_natChars]
            have he : -(n.natAbs : Int) = n := by omega
            rw [he]
          · rw [if_neg hneg]
            obtain ⟨c, cs, hc, hd⟩ := natChars_head n.toNat
            rw [hc, List.cons_append, parseV_digit f c _ hd]
            simp only []
            rw [show c :: (cs ++ rest) = natChars n.toNat ++ rest from by rw [hc]; rfl,
              takeDigits_append _ _ (natChars_digits _) (delim_head_not_digit rest hdel)]
            simp only [digitsVal_natChars]
            have he : ((n.toNat : Nat) : Int) = n := by omega
            rw [he]
        | str s =>
          rw [show ser (.str s) = '\"' :: escape s ++ ['\"'] from by rw [ser]]
          rw [show ('\"' :: escape s ++ ['\"']) ++ rest
                = '\"' :: (escape s ++ '\"' :: rest) from by simp]
          rw [parseV_quote, parseStr_escape]
        | arr xs =>
          cases xs with
          | nil =>
            rw [show ser (.arr []) = ['[', ']'] from by rw [ser, serElems]; rfl]
            rw [show (['[', ']'] : List Char) ++ rest = '[' :: ']' :: rest from rfl]
            rw [parseV_lbrack]
            simp
          | cons x xs' =>
            rw [show ser (.arr (x :: xs')) = '[' :: serElems (x :: xs') ++ [']'] from
                  by rw [ser]]
            rw [show ('[' :: serElems (x :: xs') ++ [']']) ++ rest
                  = '[' :: (serElems (x :: xs') ++ ']' :: rest) from by simp]
            rw [parseV_lbrack]
            obtain ⟨c, cs, hc, hne, _⟩ := ser_head x
            have hhead : ((serElems (x :: xs') ++ ']' :: rest).head? = some ']')
                = False := by
              cases xs' with
              | nil =>
                rw [serElems_single, hc]
                simp [hne]
              | cons y t =>
                rw [serElems_cons2, hc]
                simp [hne]
            rw [if_neg (by rw [hhead]; exact id)]
            have hsz' : sizeE (x :: xs') ≤ f := by
              rw [sizeJ] at hsz
              omega
            rw [ihE x xs' rest hsz']
        | obj kvs =>
          cases kvs with
          | nil =>
            rw [show ser (.obj []) = ['\x7b', '\x7d'] from by rw [ser, serMembers]; rfl]
            rw [show (['\x7b', '\x7d'] : List Char) ++ rest
                  = '\x7b' :: '\x7d' :: rest from rfl]
            rw [parseV_lbrace]
            simp
          | cons kv kvs' =>
            obtain ⟨k, v⟩ := kv
            rw [show ser (.obj ((k, v) :: kvs'))
                  = '\x7b' :: serMembers ((k, v) :: kvs') ++ ['\x7d'] from by rw [ser]]
            rw [show ('\x7b' :: serMembers ((k, v) :: kvs') ++ ['\x7d']) ++ rest
                  = '\x7b' :: (serMembers ((k, v) :: kvs') ++ '\x7d' :: rest) from
                  by simp]
            rw [parseV_lbrace]
            have hhead : ((serMembers ((k, v) :: kvs') ++ '\x7d' :: rest).head?
                = some '\x7d') = False := by
              cases kvs' with
              | nil =>
                rw [serMembers_single]
                simp
              | cons m t =>
                rw [serMembers_cons2]
                simp
            rw [if_neg (by rw [hhead]; exact id)]
            have hsz' : sizeM ((k, v) :: kvs') ≤ f := by
              rw [sizeJ] at hsz
              omega
            rw [ihM k v kvs' rest hsz']
      · intro x xs rest hsz
        rw [sizeE_cons] at hsz
        cases xs with
        | nil =>
          rw [serElems_single]
          have hx : parseV f (ser x ++ ']' :: rest) = some (x, ']' :: rest) :=
            ihV x (']' :: rest) (by omega) (delim_brack rest)
          rw [parseElems_succ, hx]
          rfl
        | cons y t =>
          rw [serElems_cons2]
          rw [show (ser x ++ ',' :: serElems (y :: t)) ++ ']' :: rest
                = ser x ++ (',' :: (serElems (y :: t) ++ ']' :: rest)) from by simp]
          have hyt : 1 ≤ sizeE (y :: t) := by
            rw [sizeE_cons]
            omega
          have hx : parseV f (ser x ++ ',' :: (serElems (y :: t) ++ ']' :: rest))
              = some (x, ',' :: (serElems (y :: t) ++ ']' :: rest)) :=
            ihV x _ (by omega) (delim_comma _)
          have hrec : parseElems f (serElems (y :: t) ++ ']' :: rest)
              = some (y :: t, rest) :=
            ihE y t rest (by omega)
          rw [parseElems_succ, hx]
          simp [hrec]
      · intro k v kvs rest hsz
        rw [sizeM_cons] at hsz
        cases kvs with
        | nil =>
          rw [serMembers_single]
          rw [show (('\"' :: escape k ++ '\"' :: ':' :: ser v) ++ '\x7d' :: rest)
                = '\"' :: (escape k ++ '\"' :: (':' :: (ser v ++ '\x7d' :: rest))) from
                by simp]
          rw [parseMembers_quote, parseStr_escape]
          have hv : parseV f (ser v ++ '\x7d' :: rest) = some (v, '\x7d' :: rest) :=
            ihV v ('\x7d' :: rest) (by omega) (delim_brace rest)
          simp [hv]
        | cons m t =>
          obtain ⟨k₂, v₂⟩ := m
          rw [serMembers_cons2]
          rw [show ((('\"' :: escape k ++ '\"' :: ':' :: ser v)
                  ++ ',' :: serMembers ((k₂, v₂) :: t)) ++ '\x7d' :: rest)
                = '\"' :: (escape k ++ '\"' :: (':' :: (ser v
                    ++ ',' :: (serMembers ((k₂, v₂) :: t) ++ '\x7d' :: rest)))) from
                by simp]
          rw [parseMembers_quote, parseStr_escape]
          have hv : parseV f (ser v
                ++ ',' :: (serMembers ((k₂, v₂) :: t) ++ '\x7d' :: rest))
              = some (v, ',' :: (serMembers ((k₂, v₂) :: t) ++ '\x7d' :: rest)) :=
            ihV v _ (by omega) (delim_comma _)
          have hrec : parseMembers f (serMembers ((k₂, v₂) :: t) ++ '\x7d' :: rest)
              = some ((k₂, v₂) :: t, rest) := by
            apply ihM
            have := sizeJ_pos v₂
            rw [sizeM_cons] at hsz ⊢
            omega
          simp [hv, hrec]

theorem size_le_serLen (n : Nat) :
    (∀ j, sizeJ j ≤ n → sizeJ j ≤ (ser j).length) ∧
    (∀ xs, sizeE xs ≤ n → sizeE xs ≤ (serElems xs).length + 1) ∧
    (∀ kvs, sizeM kvs ≤ n → sizeM kvs ≤ (serMembers kvs).length + 1) := by
  induction n using Nat.strong_induction_on with
  | _ n ih =>
    refine ⟨?_, ?_, ?_⟩
    · intro j hj
      cases j with
      | null => rw [sizeJ, ser]; simp
      | bool b => cases b <;> (rw [sizeJ, ser]; simp [boolChars])
      | num n' =>
        rw [sizeJ, ser]
        cases hl : intChars n' with
        | nil => exact absurd hl (intChars_ne_nil n')
        | cons c cs => simp
      | str s =>
        rw [sizeJ, ser]
        simp
      | arr xs =>
        rw [sizeJ] at hj ⊢
        rw [ser]
        have h1 : 0 ≤ sizeE xs := Nat.zero_le _
        have he := (ih (n - 1) (by omega)).2.1 xs (by omega)
        simp [List.length_append]
        omega
      | obj kvs =>
        rw [sizeJ] at hj ⊢
        rw [ser]
        have hm := (ih (n - 1) (by omega)).2.2 kvs (by omega)
        simp [List.length_append]
        omega
    · intro xs hxs
      cases xs with
      | nil => rw [sizeE]; omega
      | cons x xs' =>
        rw [sizeE_cons] at hxs ⊢
        have hn1 : sizeJ x ≤ n - 1 := by omega
        have hx := (ih (n - 1) (by omega)).1 x hn1
        cases xs' with
        | nil =>
          rw [serElems_single, sizeE]
          omega
        | cons y t =>
          rw [serElems_cons2]
          have hyt : sizeE (y :: t) ≤ n - 1 := by
            have := sizeJ_pos x
            omega
          have he := (ih (n - 1) (by have := sizeJ_pos x; omega)).2.1 (y :: t) hyt
          simp [List.length_append]
          omega
    · intro kvs hkvs
      cases kvs with
      | nil => rw [sizeM]; omega
      | cons kv kvs' =>
        obtain ⟨k, v⟩ := kv
        rw [sizeM_cons] at hkvs ⊢
        have hv := (ih (n - 1) (by omega)).1 v (by omega)
        cases kvs' with
        | nil =>
          rw [serMembers_single, sizeM]
          simp [List.length_append]
          omega
        | cons m t =>
          rw [serMembers_cons2]
          have hmt : sizeM (m :: t) ≤ n - 1 := by
            have := sizeJ_pos v
            omega
          have hm := (ih (n - 1) (by have := sizeJ_pos v; omega)).2.2 (m :: t) hmt
          simp [List.length_append]
          omega

theorem parseJson_ser (j : Json) : parseJson (ser j) = some j := by
  have hsz : sizeJ j ≤ (ser j).length := (size_le_serLen (sizeJ j)).1 j le_rfl
  have h := (parse_ser ((ser j).length + 1)).1 j [] (by omega) delim_nil
  rw [List.append_nil] at h
  unfold parseJson
  rw [h]

theorem extract_mkChartContent (j : Json) :
    extractChartCode (mkChartContent j) = some (ser j ++ ['\n']) := by
  have h9 : fenceOpen.length = 9 := rfl
  have hassoc : mkChartContent j = (fenceOpen ++ (ser j ++ ['\n'])) ++ backtick3 := by
    unfold mkChartContent
    simp
  have hlen : (mkChartContent j).length = (ser j).length + 13 := by
    rw [hassoc]
    simp [List.length_append, h9, show backtick3.length = 3 from rfl]
    omega
  have htake : (mkChartContent j).take 9 = fenceOpen := by
    rw [show mkChartContent j = fenceOpen ++ (ser j ++ '\n' :: backtick3) from
          by unfold mkChartContent; simp]
    exact List.take_left' h9
  have hdrop : (mkChartContent j).drop ((mkChartContent j).length - 3) = backtick3 := by
    rw [hassoc]
    have hl2 : (fenceOpen ++ (ser j ++ ['\n']) ++ backtick3).length - 3
        = (fenceOpen ++ (ser j ++ ['\n'])).length := by
      simp [List.length_append, h9, show backtick3.length = 3 from rfl]
      omega
    rw [hl2]
    exact List.drop_left _ _
  have hdrop9 : (mkChartContent j).drop 9 = ser j ++ '\n' :: backtick3 := by
    rw [show mkChartContent j = fenceOpen ++ (ser j ++ '\n' :: backtick3) from
          by unfold mkChartContent; simp]
    exact List.drop_left' h9
  unfold extractChartCode
  rw [if_pos ⟨htake, hdrop⟩, hdrop9, hlen]
  rw [show ser j ++ '\n' :: backtick3 = (ser j ++ ['\n']) ++ backtick3 from by simp]
  rw [List.take_left' (show (ser j ++ ['\n']).length = (ser j).length + 13 - 12 from
        by simp)]

theorem strip_newline_concat (l : List Char) :
    stripTrailingNewline (l ++ ['\n']) = l := by
  unfold stripTrailingNewline
  rw [List.getLast?_concat, if_pos rfl]
  exact List.dropLast_concat

/-- C5: serializing a chart descriptor received in a `'chart'` message
into the fenced chart code block and parsing that block back through
the renderer path (fence extraction, trailing-newline strip,
`JSON.parse`) reproduces the same descriptor — identical structure,
series data and key bindings — without loss. -/
theorem chart_roundtrip (chart : Json) :
    renderChartBlock (mkChartContent chart) = some chart := by
  unfold renderChartBlock
  rw [extract_mkChartContent]
  simp [strip_newline_concat, parseJson_ser]

end MoneyMind
